import Mathlib

/-!
# Verification of the DFA minimization engine (`dfa_gf.py`)

This file gives a shallow embedding of the Python module `dfa_gf.py`:
the `DFA` class (construction in `__init__`, simulation in `run`) and the
table-filling minimizer `minimize_dfa` with its inner recursive `mark_pair`.

Modelling conventions, chosen to mirror the Python semantics exactly:

* Python `dict`s are insertion-ordered association lists.  Assignment to an
  existing key updates it in place; assignment to an absent key appends at the
  end; `pop` removes the entry and raises `KeyError` when absent.
* The `marked` list receives two kinds of elements in the source: tuples
  (from the base marking) and — through `marked.append(unmarked[key_])` in
  `mark_pair` — entire dependency *lists*.  We model its elements as a sum
  type; the membership test `(p, q) in marked` only ever matches tuple
  entries, exactly as in Python where a tuple never equals a list.
* Uncaught exceptions (`KeyError` from a dictionary access) abort the whole
  call; in `mark_pair` the `try ... except KeyError: pass` around the
  dependency loop swallows an exception raised by a recursive call and
  abandons the rest of the loop.  Functions that can raise return an
  `Option`-layered result; `markPair` additionally reports whether it
  returned normally or raised.
* `mark_pair` is recursive with no structural decrease, so it takes an
  explicit recursion-depth bound (`fuel`); a result of `none` at every fuel
  models the Python `RecursionError` on a divergent call chain.
* `run` stores the current state in the attribute `self.state`, which
  persists on the object after the call; the `DFA` record therefore carries
  an `Option Nat` field `state`, absent (`none`) at construction time.

Outcome encoding for the minimizer: `none` = recursion depth exhausted at the
given fuel, `some none` = an uncaught exception (crash), `some (some d)` =
normal return of automaton `d`.
-/

namespace DfaGf


/-- State pairs as ordered tuples `(r, s)`, as produced by the pair table. -/
abbrev StPair := Nat × Nat

/-- Transition dictionary: insertion-ordered list of `((state, symbol), state)`. -/
abbrev TransMap := List ((Nat × Char) × Nat)

/-- An element of the `marked` list: either a state pair (base marking) or a
dependency list appended by `mark_pair` (the source appends the list itself). -/
abbrev MEntry := Sum StPair (List StPair)

/-- The `unmarked` dictionary: pair ↦ list of pairs waiting on it. -/
abbrev UList := List (StPair × List StPair)

/-- Joint working state of the marking phase: `(marked, unmarked)`. -/
abbrev MarkSt := List MEntry × UList

/-- The `DFA` class: fields set by `__init__`, plus the `state` attribute that
`run` creates on the object (absent, i.e. `none`, after construction). -/
structure DFA where
  states : List Nat
  symbols : List Char
  transitions : TransMap
  initial_state : Nat
  final_states : List Nat
  state : Option Nat := none
deriving DecidableEq, Repr

/-- `DFA.__init__`: stores the five arguments verbatim; no validation of any
kind is performed in the source. -/
def mkDFA (Q : List Nat) (Sigma : List Char) (delta : TransMap) (q0 : Nat)
    (F : List Nat) : DFA :=
  { states := Q, symbols := Sigma, transitions := delta,
    initial_state := q0, final_states := F, state := none }

/-- Dictionary lookup `d[k]`; `none` models a `KeyError`. -/
def lookupT : TransMap → (Nat × Char) → Option Nat
  | [], _ => none
  | (k, v) :: rest, key => if k = key then some v else lookupT rest key

/-- The loop of `DFA.run`: follow one transition per symbol; `none` models the
`KeyError` on a missing transition entry. -/
def walk (ts : TransMap) : Nat → List Char → Option Nat
  | st, [] => some st
  | st, c :: w =>
    match lookupT ts (st, c) with
    | none => none
    | some st2 => walk ts st2 w

/-- The value held by `self.state` when `run` finishes or raises: the last
state assigned before a missing transition stops the loop. -/
def walkLast (ts : TransMap) : Nat → List Char → Nat
  | st, [] => st
  | st, c :: w =>
    match lookupT ts (st, c) with
    | none => st
    | some st2 => walkLast ts st2 w

/-- `DFA.run`: simulate the word from the initial state and test membership of
the final state in `final_states`; `none` models the uncaught `KeyError`. -/
def DFA.run (d : DFA) (w : List Char) : Option Bool :=
  (walk d.transitions d.initial_state w).map (fun s => d.final_states.contains s)

/-- `DFA.run` viewed as a method on the object: it returns the result *and*
the object as it is after the call, with `self.state` set to the last state
the loop assigned. -/
def DFA.runObj (d : DFA) (w : List Char) : DFA × Option Bool :=
  ({ d with state := some (walkLast d.transitions d.initial_state w) }, d.run w)

/-- Insertion of a number into a sorted list (for Python `sorted`). -/
def insertNat (x : Nat) : List Nat → List Nat
  | [] => [x]
  | y :: ys => if x ≤ y then x :: y :: ys else y :: insertNat x ys

/-- `sorted` on the state set. -/
def sortNat : List Nat → List Nat
  | [] => []
  | x :: xs => insertNat x (sortNat xs)

/-- Insertion of a character into a sorted list. -/
def insertChar (x : Char) : List Char → List Char
  | [] => [x]
  | y :: ys => if x ≤ y then x :: y :: ys else y :: insertChar x ys

/-- `sorted` on the symbol set. -/
def sortChar : List Char → List Char
  | [] => []
  | x :: xs => insertChar x (sortChar xs)

/-- The pair table built by the two nested loops of `minimize_dfa`:
for each `r = states[n]` the partners `s` run over `states[-1:n:-1]`, i.e.
the states after `r` in reverse order. -/
def pairsOf : List Nat → List StPair
  | [] => []
  | r :: rest => (rest.reverse.map (fun s => (r, s))) ++ pairsOf rest

/-- Exclusive-or of the two acceptance tests, as in
`(r in dfa.final_states) ^ (s in dfa.final_states)`. -/
def xorMark (d : DFA) (p : StPair) : Bool :=
  (d.final_states.contains p.1) != (d.final_states.contains p.2)

/-- The initial `marked` list: pairs of the table with exactly one accepting
member, in table order. -/
def markedInit (d : DFA) : List MEntry :=
  ((pairsOf (sortNat d.states)).filter (fun p => xorMark d p)).map Sum.inl

/-- The initial `unmarked` dictionary: the remaining pairs, each mapped to an
empty dependency list, in table order. -/
def unmarkedInit (d : DFA) : UList :=
  ((pairsOf (sortNat d.states)).filter (fun p => !(xorMark d p))).map
    (fun p => (p, []))

/-- `(p, q) in marked`: tuple membership; dependency-list elements never
compare equal to a tuple. -/
def memMarked : List MEntry → StPair → Bool
  | [], _ => false
  | Sum.inl k :: rest, p => if k = p then true else memMarked rest p
  | Sum.inr _ :: rest, p => memMarked rest p

/-- `unmarked[k]` lookup; `none` models the `KeyError`. -/
def lookupU : UList → StPair → Option (List StPair)
  | [], _ => none
  | (k, v) :: rest, key => if k = key then some v else lookupU rest key

/-- `unmarked.pop(k)`: remove the entry (callers check presence first). -/
def popU : UList → StPair → UList
  | [], _ => []
  | (k, v) :: rest, key => if k = key then rest else (k, v) :: popU rest key

/-- `unmarked[k].append(dep)`: extend the dependency list of `k` in place. -/
def appendU : UList → StPair → StPair → UList
  | [], _, _ => []
  | (k, v) :: rest, key, dep =>
    if k = key then (k, v ++ [dep]) :: rest else (k, v) :: appendU rest key dep

/-- The `for _ in unmarked[key_]` loop of `mark_pair`, wrapped in
`try ... except KeyError: pass`: the per-dependency recursive call is supplied
as `mp`.  Result `some (st, true)` = loop ran to completion, `some (st, false)`
= a recursive call raised and the rest of the loop was abandoned (the caller
proceeds to the pop either way), `none` = recursion depth exhausted. -/
def markDepsWith (mp : MarkSt → StPair → Option (MarkSt × Bool)) :
    MarkSt → List StPair → Option (MarkSt × Bool)
  | st, [] => some (st, true)
  | st, dep :: deps =>
    match mp st dep with
    | none => none
    | some (st2, false) => some (st2, false)
    | some (st2, true) => markDepsWith mp st2 deps

/-- `mark_pair(key_)`.  Steps of the source, in order:
`marked.append(unmarked[key_])` (raises if `key_` is absent, before any
mutation); the dependency loop with its `try`/`except`; `unmarked.pop(key_)`
(raises if a descendant already removed `key_`).  The result Boolean is
`true` for a normal return and `false` when the call raises `KeyError`;
`none` means the recursion-depth bound was exceeded. -/
def markPair : Nat → MarkSt → StPair → Option (MarkSt × Bool)
  | 0, _, _ => none
  | fuel + 1, st, key =>
    match lookupU st.2 key with
    | none => some (st, false)
    | some deps =>
      match markDepsWith (markPair fuel) (st.1 ++ [Sum.inr deps], st.2) deps with
      | none => none
      | some (st2, _) =>
        match lookupU st2.2 key with
        | none => some (st2, false)
        | some _ => some ((st2.1, popU st2.2 key), true)

/-- The inner symbol loop of the scan over unmarked pairs.  For pair `(r, s)`
and each symbol: look up the two successors (a missing entry is an uncaught
`KeyError`), skip when they are equal or are `(r, s)` itself, call
`mark_pair` and stop this pair when the successor pair is marked (an
exception out of `mark_pair` is uncaught here), otherwise record `(r, s)` in
the successor pair's dependency list (raising if that pair is not a key of
`unmarked`).  Result: `none` = fuel, `some none` = crash,
`some (some st)` = this pair's scan finished. -/
def scanSyms (fuel : Nat) (d : DFA) (r s : Nat) :
    List Char → MarkSt → Option (Option MarkSt)
  | [], st => some (some st)
  | c :: cs, st =>
    match lookupT d.transitions (r, c) with
    | none => some none
    | some p =>
      match lookupT d.transitions (s, c) with
      | none => some none
      | some q =>
        if p = q then scanSyms fuel d r s cs st
        else if p = r ∧ q = s then scanSyms fuel d r s cs st
        else if memMarked st.1 (p, q) then
          match markPair fuel st (r, s) with
          | none => none
          | some (_, false) => some none
          | some (st2, true) => some (some st2)
        else
          match lookupU st.2 (p, q) with
          | none => some none
          | some _ => scanSyms fuel d r s cs (st.1, appendU st.2 (p, q) (r, s))

/-- The outer loop of the scan: iterate over the snapshot of the unmarked
keys (`unmarked_copy`), threading the working state. -/
def scanPairs (fuel : Nat) (d : DFA) :
    List StPair → MarkSt → Option (Option MarkSt)
  | [], st => some (some st)
  | (r, s) :: rest, st =>
    match scanSyms fuel d r s (sortChar d.symbols) st with
    | none => none
    | some none => some none
    | some (some st2) => scanPairs fuel d rest st2

/-- The whole marking phase of `minimize_dfa`: base marking followed by the
scan over the snapshot of unmarked pairs. -/
def markingPhase (fuel : Nat) (d : DFA) : Option (Option MarkSt) :=
  let um0 := unmarkedInit d
  scanPairs fuel d (um0.map (·.1)) (markedInit d, um0)

/-- `min_transitions[key_] = p`: dictionary assignment — update in place when
the key is present, append at the end otherwise (as a previously popped key
re-enters at the end in Python). -/
def updateT (ts : TransMap) (key : Nat × Char) (v : Nat) : TransMap :=
  if (lookupT ts key).isSome then
    ts.map (fun kv => if kv.1 = key then (key, v) else kv)
  else ts ++ [(key, v)]

/-- `min_transitions.pop(key_)`: `none` models the `KeyError` when the key was
already removed by an earlier merge. -/
def popT : TransMap → (Nat × Char) → Option TransMap
  | [], _ => none
  | (k, v) :: rest, key =>
    if k = key then some rest
    else (popT rest key).map (fun r => (k, v) :: r)

/-- The inner loop of the rebuild step for one unmarked pair `(p, q)`:
iterate over the *original* transitions; redirect entries whose value is `q`
to `p`, and pop entries whose source state is `q`. -/
def quotInner (p q : Nat) : TransMap → TransMap → Option TransMap
  | [], mt => some mt
  | (k, v) :: rest, mt =>
    let mt1 := if v = q then updateT mt k p else mt
    if k.1 = q then
      match popT mt1 k with
      | none => none
      | some mt2 => quotInner p q rest mt2
    else quotInner p q rest mt1

/-- The outer rebuild loop over the final unmarked pairs. -/
def quotAll (orig : TransMap) : List StPair → TransMap → Option TransMap
  | [], mt => some mt
  | (p, q) :: ps, mt =>
    match quotInner p q orig mt with
    | none => none
    | some mt2 => quotAll orig ps mt2

/-- Package the rebuild result: a failed pop is a crash, otherwise the new
`DFA` is built from the *original* state set, symbols, initial state and
final states, with only the transition dictionary replaced. -/
def finishQuot (d : DFA) (r : Option TransMap) : Option (Option DFA) :=
  match r with
  | none => some none
  | some mt =>
    some (some (mkDFA d.states d.symbols mt d.initial_state d.final_states))

/-- `minimize_dfa`: marking phase, then the transition rebuild over the keys
still unmarked. -/
def minimizeDFA (fuel : Nat) (d : DFA) : Option (Option DFA) :=
  match markingPhase fuel d with
  | none => none
  | some none => some none
  | some (some st) =>
    finishQuot d (quotAll d.transitions (st.2.map (·.1)) d.transitions)

/-- Convenience: run a word on the minimized automaton, keeping the outcome
layers of `minimizeDFA`. -/
def minRun (fuel : Nat) (d : DFA) (w : List Char) : Option (Option (Option Bool)) :=
  match minimizeDFA fuel d with
  | none => none
  | some none => some none
  | some (some b) => some (some (b.run w))

/-- The specification-side description of `Run` (§4.1 of the spec): starting
at `start`, fold the transition function over the word in order, failing on a
missing entry, and accept exactly when the reached state is accepting. -/
def specRun (d : DFA) (w : List Char) : Option Bool :=
  (w.foldlM (fun st c => lookupT d.transitions (st, c)) d.initial_state).map
    (fun s => d.final_states.contains s)

/-! ## The example automata of the source (`D[0]`, `D[1]`, `D[2]`) -/

/-- `D[0]`: over `{a, b}`, no `a` may follow a `b`. -/
def D0 : DFA :=
  mkDFA [0, 1, 2] ['a', 'b']
    [((0, 'a'), 0), ((0, 'b'), 1), ((1, 'a'), 2), ((1, 'b'), 1),
     ((2, 'a'), 2), ((2, 'b'), 2)]
    0 [0, 1]

/-- `D[2]`: the reference minimization example. -/
def D2 : DFA :=
  mkDFA [0, 1, 2, 3, 4, 5] ['a', 'b']
    [((0, 'a'), 1), ((0, 'b'), 4), ((1, 'a'), 2), ((1, 'b'), 3),
     ((2, 'a'), 2), ((2, 'b'), 2), ((3, 'a'), 2), ((3, 'b'), 3),
     ((4, 'a'), 5), ((4, 'b'), 4), ((5, 'a'), 5), ((5, 'b'), 4)]
    0 [2, 3]

/-- The automaton `minimize_dfa` actually returns on `D[2]`: all six states,
the original start and accepting sets, and the merged transition table. -/
def D2min : DFA :=
  mkDFA [0, 1, 2, 3, 4, 5] ['a', 'b']
    [((0, 'a'), 1), ((0, 'b'), 4), ((1, 'a'), 2), ((1, 'b'), 2),
     ((2, 'a'), 2), ((2, 'b'), 2), ((4, 'a'), 4), ((4, 'b'), 4)]
    0 [2, 3]

/-- The class-representative map on `D[2]`: `{2,3}` is represented by `2` and
`{4,5}` by `4` (smallest member of each equivalence class). -/
def repD2 : Nat → Nat :=
  fun s => if s = 3 then 2 else if s = 5 then 4 else s

/-! ## Concrete automata used to settle the claims -/

/-- A complete four-state automaton over `{a, b, c}` on which the minimizer
terminates normally but changes the accepted language: the scan records
`(0, 2)` as the first dependency of `(1, 2)`; `(0, 2)` is marked during its
own scan, so when `(1, 2)` is later found distinguishable the dependency walk
raises `KeyError` on `(0, 2)`, the `except` clause abandons the loop, and the
pair `(0, 1)` — distinguishable via the word `ac` — is never marked and gets
merged. -/
def A1 : DFA :=
  mkDFA [0, 1, 2, 3] ['a', 'b', 'c']
    [((0, 'a'), 1), ((0, 'b'), 0), ((0, 'c'), 0),
     ((1, 'a'), 2), ((1, 'b'), 0), ((1, 'c'), 0),
     ((2, 'a'), 2), ((2, 'b'), 1), ((2, 'c'), 3),
     ((3, 'a'), 3), ((3, 'b'), 3), ((3, 'c'), 3)]
    0 [3]

/-- A complete two-state automaton with no accepting state.  Scanning the pair
`(0, 1)` under `a` produces the successor pair `(1, 0)` in descending order;
`(1, 0)` is a key of neither `marked` nor `unmarked` (the table only holds
ascending pairs), so `unmarked[(1, 0)].append(...)` raises an uncaught
`KeyError`. -/
def A3 : DFA :=
  mkDFA [0, 1] ['a'] [((0, 'a'), 1), ((1, 'a'), 0)] 0 []

/-- A complete four-state automaton on which `mark_pair` recurses forever:
the scan makes `(0, 1)` and `(2, 3)` dependencies of each other, and when
`(2, 3)` is found distinguishable the recursive dependency walk alternates
between the two pairs (each entry re-reads its dependency list before either
pop runs), exceeding every recursion depth. -/
def A8 : DFA :=
  mkDFA [0, 1, 2, 3] ['a', 'b']
    [((0, 'a'), 2), ((0, 'b'), 0), ((1, 'a'), 3), ((1, 'b'), 1),
     ((2, 'a'), 0), ((2, 'b'), 0), ((3, 'a'), 1), ((3, 'b'), 2)]
    0 [2, 3]

/-- The `marked` list of `A8` after the base marking (`F = {2, 3}`). -/
def MK8 : List MEntry :=
  [Sum.inl (0, 3), Sum.inl (0, 2), Sum.inl (1, 3), Sum.inl (1, 2)]

/-- The `unmarked` dictionary of `A8` at the moment `mark_pair((2, 3))` is
invoked: the two surviving pairs each hold the other as a dependency. -/
def U8 : UList := [((0, 1), [(2, 3)]), ((2, 3), [(0, 1)])]

/-- A complete five-state automaton on which the marking phase finishes
without crashing but the resulting unmarked relation is not transitive:
`(0, 4)` is appended twice to the dependency list of `(2, 4)`, so when
`(2, 4)` is marked the second visit of `(0, 4)` raises `KeyError`, the loop
is abandoned, and the dependencies `(0, 1)` and `(1, 4)` survive unmarked
while `(0, 4)` is marked. -/
def A9 : DFA :=
  mkDFA [0, 1, 2, 3, 4] ['a', 'b']
    [((0, 'a'), 2), ((0, 'b'), 2), ((1, 'a'), 2), ((1, 'b'), 4),
     ((2, 'a'), 3), ((2, 'b'), 3), ((3, 'a'), 1), ((3, 'b'), 1),
     ((4, 'a'), 4), ((4, 'b'), 4)]
    0 [3]

/-- The pairs left unmarked by the marking phase, when it completes. -/
def unmarkedKeysOf (fuel : Nat) (d : DFA) : Option (Option (List StPair)) :=
  match markingPhase fuel d with
  | none => none
  | some none => some none
  | some (some st) => some (some (st.2.map (·.1)))

/-- The equivalence candidate relation induced by a list of unmarked pairs:
two states are related when they are equal or appear together (in either
order) in the list. -/
def uRel (ks : List StPair) (r s : Nat) : Bool :=
  decide (r = s) || ks.contains (r, s) || ks.contains (s, r)

/-- The final unmarked keys of the marking phase on `A9`. -/
def A9keys : List StPair := [(0, 1), (1, 4)]

/-- An automaton whose declared start state `5` is not in its state set; the
constructor accepts it without complaint. -/
def badDFA : DFA := mkDFA [0] ['a'] [] 5 []

/-! ## Theorems -/

/-- C1.  Language preservation fails: `A1` is a complete automaton on which
`minimize_dfa` returns normally, yet the word `aac` is accepted by `A1` and
rejected by the minimized automaton. -/
theorem claim_C1 :
    A1.run ['a', 'a', 'c'] = some true ∧
    minRun 50 A1 ['a', 'a', 'c'] = some (some (some false)) := by
  decide

/-- C3.  The error contract fails on the complete side: `A3` is complete
(both states have a transition for the single symbol `a`), yet
`minimize_dfa` raises an uncaught `KeyError` on it at every recursion depth,
instead of succeeding. -/
theorem claim_C3 : ∀ fuel : Nat, minimizeDFA fuel A3 = some none :=
  fun _ => rfl

/-- C5 counterexample.  Constructing an automaton whose start state is not a
member of the declared state set does not fail: `badDFA` is produced with
start state `5` even though `5` is not among its states. -/
theorem claim_C5_counterexample :
    badDFA.initial_state = 5 ∧ badDFA.states.contains 5 = false := by
  decide

/-- C5 (amended).  Construction performs no validation at all: the five
arguments are stored verbatim whatever they are, and the resulting automaton
— even one whose start state lies outside its state set — is silently
accepted and usable. -/
theorem claim_C5 :
    (∀ (Q : List Nat) (Sigma : List Char) (delta : TransMap) (q0 : Nat)
        (F : List Nat),
      (mkDFA Q Sigma delta q0 F).states = Q ∧
      (mkDFA Q Sigma delta q0 F).symbols = Sigma ∧
      (mkDFA Q Sigma delta q0 F).transitions = delta ∧
      (mkDFA Q Sigma delta q0 F).initial_state = q0 ∧
      (mkDFA Q Sigma delta q0 F).final_states = F) ∧
    (mkDFA [0, 1] ['a'] [((5, 'a'), 5)] 5 [5]).run ['a'] = some true :=
  ⟨fun _ _ _ _ _ => ⟨rfl, rfl, rfl, rfl, rfl⟩, by decide⟩

/-- C7 counterexample.  `run` is not free of side effects on the automaton:
running the source's example automaton `D[0]` on the word `a` changes the
object (the `state` attribute appears on it). -/
theorem claim_C7_counterexample : (D0.runObj ['a']).1 ≠ D0 := by
  decide

/-- C7 (amended).  `run` leaves the five construction fields of the automaton
unchanged and does not let the stored `state` attribute influence the result,
but it does store the last visited state in the `state` attribute, which
persists on the object after the call. -/
theorem claim_C7 : ∀ (d : DFA) (w : List Char),
    ((d.runObj w).1.states = d.states ∧
     (d.runObj w).1.symbols = d.symbols ∧
     (d.runObj w).1.transitions = d.transitions ∧
     (d.runObj w).1.initial_state = d.initial_state ∧
     (d.runObj w).1.final_states = d.final_states) ∧
    (d.runObj w).1.state = some (walkLast d.transitions d.initial_state w) ∧
    (d.runObj w).2 = d.run w ∧
    (∀ st : Option Nat, DFA.run { d with state := st } w = d.run w) :=
  fun _ _ => ⟨⟨rfl, rfl, rfl, rfl, rfl⟩, rfl, rfl, fun _ => rfl⟩

/-- The mutual dependency cycle of `A8`: once the scan reaches the trigger,
`mark_pair` on either of `(2, 3)` and `(0, 1)` recurses through the other
pair forever, whatever the `marked` list holds and whatever depth is
allowed. -/
theorem markPair_A8_diverges : ∀ (fuel : Nat) (mk : List MEntry),
    markPair fuel (mk, U8) (2, 3) = none ∧
    markPair fuel (mk, U8) (0, 1) = none := by
  intro fuel
  induction fuel with
  | zero => intro mk; exact ⟨rfl, rfl⟩
  | succ n ih =>
    intro mk
    constructor
    · have h2 := (ih (mk ++ [Sum.inr [(0, 1)]])).2
      simp only [U8] at h2
      simp [markPair, markDepsWith, U8, lookupU, h2]
    · have h2 := (ih (mk ++ [Sum.inr [(2, 3)]])).1
      simp only [U8] at h2
      simp [markPair, markDepsWith, U8, lookupU, h2]

/-- C8.  Termination fails: on the complete automaton `A8` the marking
phase's recursive `mark_pair` exceeds every recursion depth (a
`RecursionError` in Python), so `minimize_dfa` does not terminate normally
for any depth bound. -/
theorem claim_C8 : ∀ fuel : Nat, minimizeDFA fuel A8 = none := by
  intro fuel
  have h := (markPair_A8_diverges fuel MK8).1
  simp only [MK8, U8] at h
  simp [minimizeDFA, markingPhase, scanPairs, scanSyms, unmarkedInit, markedInit,
        A8, mkDFA, pairsOf, sortNat, insertNat, sortChar, insertChar, xorMark,
        lookupT, lookupU, memMarked, appendU, h]

/-- The simulation loop agrees with the specification-side fold over the word:
both follow one transition per symbol, in order, and stop at the first missing
entry. -/
theorem walk_eq_foldlM (ts : TransMap) : ∀ (w : List Char) (st : Nat),
    walk ts st w = w.foldlM (fun s c => lookupT ts (s, c)) st := by
  intro w
  induction w with
  | nil => intro st; rfl
  | cons c w2 ih =>
    intro st
    rw [List.foldlM_cons]
    cases h : lookupT ts (st, c) with
    | none => simp [walk, h]
    | some st2 => simp [walk, h, ih st2]

/-- C6.  The `run` contract: `run` equals the specification fold (start at the
initial state, one transition per symbol in order, accept exactly when the
reached state is accepting); the empty word is accepted exactly when the start
state is accepting; `run` fails exactly when the fold meets a missing entry;
and `run` on `c :: w` steps through the transition for `c` and continues from
the reached state. -/
theorem claim_C6 : ∀ (d : DFA) (w : List Char),
    d.run w = specRun d w ∧
    d.run [] = some (d.final_states.contains d.initial_state) ∧
    (d.run w = none ↔
      w.foldlM (fun s c => lookupT d.transitions (s, c)) d.initial_state
        = none) ∧
    ∀ (c : Char) (w2 : List Char),
      d.run (c :: w2) =
        match lookupT d.transitions (d.initial_state, c) with
        | none => none
        | some s => DFA.run { d with initial_state := s } w2 := by
  intro d w
  refine ⟨?_, rfl, ?_, ?_⟩
  · unfold DFA.run specRun
    rw [walk_eq_foldlM]
  · unfold DFA.run
    rw [walk_eq_foldlM]
    cases w.foldlM (fun s c => lookupT d.transitions (s, c)) d.initial_state
      <;> simp
  · intro c w2
    unfold DFA.run
    cases h : lookupT d.transitions (d.initial_state, c) with
    | none => simp [walk, h]
    | some s => simp [walk, h]

/-- C2 counterexample.  On the reference example `D[2]` the marking phase
merges `3` with `2` (the unmarked pairs are exactly `(2, 3)` and `(4, 5)`),
yet the returned automaton still lists the merged-away state `3` in its state
set and in its accepting set, so its states are not the class representatives
and its accepting set is not the representatives of accepting classes. -/
theorem claim_C2_counterexample :
    minimizeDFA 50 D2 = some (some D2min) ∧
    unmarkedKeysOf 50 D2 = some (some [(2, 3), (4, 5)]) ∧
    D2min.states.contains 3 = true ∧
    D2min.final_states.contains 3 = true := by
  decide

/-- C2 (amended).  The minimizer keeps the input's state set, symbol set,
start state and accepting set unchanged; only the transition dictionary is
rebuilt.  On the reference example `D[2]` the rebuilt dictionary does follow
the quotient rule on transitions: for every state `s` and symbol `a`, the
entry at `(representative s, a)` is the representative of the original target
of `(s, a)`. -/
theorem claim_C2 :
    minimizeDFA 50 D2 = some (some D2min) ∧
    D2min.states = D2.states ∧
    D2min.symbols = D2.symbols ∧
    D2min.initial_state = D2.initial_state ∧
    D2min.final_states = D2.final_states ∧
    (D2.states.all fun s => D2.symbols.all fun c =>
      lookupT D2min.transitions (repD2 s, c)
        == (lookupT D2.transitions (s, c)).map repD2) = true := by
  decide

/-- Bisimulation between `D[2]` and its minimized automaton along the
representative map: for every word over the alphabet and every state of
`D[2]`, walking the minimized table from the representative mirrors walking
the original table, and the original walk stays inside the state set. -/
theorem d2_walk_phi : ∀ (w : List Char), (∀ c ∈ w, c ∈ D2.symbols) →
    ∀ s, s ∈ D2.states →
      (walk D2min.transitions (repD2 s) w
        = (walk D2.transitions s w).map repD2) ∧
      (∀ t, walk D2.transitions s w = some t → t ∈ D2.states) := by
  intro w
  induction w with
  | nil =>
    intro _ s hs
    refine ⟨rfl, fun t ht => ?_⟩
    simp [walk] at ht
    rwa [ht] at hs
  | cons c w2 ih =>
    intro hw s hs
    have hc : c ∈ D2.symbols := hw c (List.mem_cons_self c w2)
    have hw2 : ∀ c2 ∈ w2, c2 ∈ D2.symbols :=
      fun c2 h => hw c2 (List.mem_cons_of_mem c h)
    simp only [D2, mkDFA] at hs hc
    fin_cases hs <;> fin_cases hc <;>
      first
        | exact ih hw2 0 (by decide)
        | exact ih hw2 1 (by decide)
        | exact ih hw2 2 (by decide)
        | exact ih hw2 3 (by decide)
        | exact ih hw2 4 (by decide)
        | exact ih hw2 5 (by decide)

/-- C4 counterexample.  Minimizing `D[2]` does not yield a 4-state automaton:
the returned automaton has all six original states (only four of them still
have outgoing transitions). -/
theorem claim_C4_counterexample :
    minimizeDFA 50 D2 = some (some D2min) ∧ D2min.states.length = 6 := by
  decide

/-- C4 (amended).  Minimizing the reference example `D[2]` merges `{2, 3}`
and `{4, 5}` in the transition table — those are exactly the unmarked pairs,
the entries of the merged-away sources `3` and `5` are removed and their
incoming targets redirected to the representatives — and the result accepts
exactly the same words over the alphabet as the original; but the returned
automaton keeps all six states rather than four. -/
theorem claim_C4 :
    (minimizeDFA 50 D2 = some (some D2min) ∧
     D2min.states.length = 6 ∧
     unmarkedKeysOf 50 D2 = some (some [(2, 3), (4, 5)]) ∧
     lookupT D2min.transitions (3, 'a') = none ∧
     lookupT D2min.transitions (3, 'b') = none ∧
     lookupT D2min.transitions (5, 'a') = none ∧
     lookupT D2min.transitions (5, 'b') = none ∧
     lookupT D2min.transitions (1, 'b') = some 2 ∧
     lookupT D2min.transitions (4, 'a') = some 4) ∧
    ∀ w : List Char, (∀ c ∈ w, c ∈ D2.symbols) → D2.run w = D2min.run w := by
  refine ⟨by decide, fun w hw => ?_⟩
  have h := d2_walk_phi w hw D2.initial_state (by decide)
  have hacc : ∀ t ∈ D2.states,
      D2min.final_states.contains (repD2 t) = D2.final_states.contains t := by
    decide
  unfold DFA.run
  rw [show D2min.initial_state = repD2 D2.initial_state from rfl, h.1]
  cases ht : walk D2.transitions D2.initial_state w with
  | none => rfl
  | some t =>
    have hmem : t ∈ D2.states := h.2 t ht
    show some (D2.final_states.contains t)
      = some (D2min.final_states.contains (repD2 t))
    exact congrArg some (hacc t hmem).symm

/-- C4 witness: the amended equivalence applied to the concrete word `aab`,
which both automata accept. -/
theorem claim_C4_witness :
    (∀ c ∈ ['a', 'a', 'b'], c ∈ D2.symbols) ∧
    D2.run ['a', 'a', 'b'] = D2min.run ['a', 'a', 'b'] :=
  ⟨by decide, claim_C4.2 ['a', 'a', 'b'] (by decide)⟩

/-- C9.  The unmarked relation is not transitive on `A9`: the marking phase
completes and leaves exactly the pairs `(0, 1)` and `(1, 4)` unmarked, so
`{0, 1}` and `{1, 4}` are unmarked while `{0, 4}` is marked. -/
theorem claim_C9 :
    unmarkedKeysOf 100 A9 = some (some A9keys) ∧
    uRel A9keys 0 1 = true ∧ uRel A9keys 1 4 = true ∧
    uRel A9keys 0 4 = false := by
  decide

/-- Keys after a dictionary assignment: every key of `updateT ts k v` is a key
of `ts` or is `k` itself. -/
theorem updateT_keys (ts : TransMap) (k : Nat × Char) (v : Nat) :
    ∀ k2 ∈ (updateT ts k v).map Prod.fst, k2 ∈ ts.map Prod.fst ∨ k2 = k := by
  intro k2 h2
  unfold updateT at h2
  split at h2
  · rw [List.map_map] at h2
    obtain ⟨kv, hkv, hk2⟩ := List.mem_map.mp h2
    by_cases he : kv.1 = k
    · right
      rw [Function.comp_apply, if_pos he] at hk2
      exact hk2 ▸ rfl
    · left
      rw [Function.comp_apply, if_neg he] at hk2
      exact List.mem_map.mpr ⟨kv, hkv, hk2⟩
  · rw [List.map_append] at h2
    rcases List.mem_append.mp h2 with h | h
    · exact Or.inl h
    · right
      simpa using h

/-- Keys after a dictionary `pop`: every key of the result was a key before. -/
theorem popT_keys : ∀ (ts : TransMap) (k : Nat × Char) (ts2 : TransMap),
    popT ts k = some ts2 → ∀ k2 ∈ ts2.map Prod.fst, k2 ∈ ts.map Prod.fst := by
  intro ts
  induction ts with
  | nil =>
    intro k ts2 h
    simp [popT] at h
  | cons kv rest ih =>
    obtain ⟨k0, v0⟩ := kv
    intro k ts2 h k2 h2
    rw [popT] at h
    split at h
    · cases h
      exact List.mem_cons_of_mem k0 h2
    · cases hr : popT rest k with
      | none => rw [hr] at h; cases h
      | some r =>
        rw [hr] at h
        simp only [Option.map_some'] at h
        cases h
        rcases List.mem_cons.mp h2 with h3 | h3
        · exact h3 ▸ List.mem_cons_self k0 _
        · exact List.mem_cons_of_mem k0 (ih k r hr k2 h3)

/-- Keys across the inner rebuild loop: every key of the result was a key of
the working dictionary or a key among the remaining original entries. -/
theorem quotInner_keys (p q : Nat) : ∀ (rest mt mt2 : TransMap),
    quotInner p q rest mt = some mt2 →
    ∀ k2 ∈ mt2.map Prod.fst,
      k2 ∈ mt.map Prod.fst ∨ k2 ∈ rest.map Prod.fst := by
  intro rest
  induction rest with
  | nil =>
    intro mt mt2 h k2 h2
    rw [quotInner] at h
    cases h
    exact Or.inl h2
  | cons kv rest2 ih =>
    obtain ⟨k, v⟩ := kv
    intro mt mt2 h k2 h2
    rw [quotInner] at h
    have hM : ∀ k3 ∈ (if v = q then updateT mt k p else mt).map Prod.fst,
        k3 ∈ mt.map Prod.fst ∨ k3 = k := by
      intro k3 h3
      split at h3
      · exact updateT_keys mt k p k3 h3
      · exact Or.inl h3
    split at h
    · cases hp : popT (if v = q then updateT mt k p else mt) k with
      | none => rw [hp] at h; cases h
      | some mtp =>
        rw [hp] at h
        rcases ih mtp mt2 h k2 h2 with h4 | h4
        · rcases hM k2 (popT_keys _ k mtp hp k2 h4) with h5 | h5
          · exact Or.inl h5
          · exact Or.inr (h5 ▸ List.mem_cons_self k _)
        · exact Or.inr (List.mem_cons_of_mem k h4)
    · rcases ih _ mt2 h k2 h2 with h4 | h4
      · rcases hM k2 h4 with h5 | h5
        · exact Or.inl h5
        · exact Or.inr (h5 ▸ List.mem_cons_self k _)
      · exact Or.inr (List.mem_cons_of_mem k h4)

/-- Keys across the whole rebuild: every key of the final dictionary was a key
of the starting dictionary or of the original transitions. -/
theorem quotAll_keys (orig : TransMap) : ∀ (ps : List StPair) (mt mt2 : TransMap),
    quotAll orig ps mt = some mt2 →
    ∀ k2 ∈ mt2.map Prod.fst,
      k2 ∈ mt.map Prod.fst ∨ k2 ∈ orig.map Prod.fst := by
  intro ps
  induction ps with
  | nil =>
    intro mt mt2 h k2 h2
    rw [quotAll] at h
    cases h
    exact Or.inl h2
  | cons pq ps2 ih =>
    obtain ⟨p, q⟩ := pq
    intro mt mt2 h k2 h2
    rw [quotAll] at h
    cases hq : quotInner p q orig mt with
    | none => rw [hq] at h; cases h
    | some mtI =>
      rw [hq] at h
      rcases ih mtI mt2 h k2 h2 with hI | hO
      · rcases quotInner_keys p q orig mt mtI hq k2 hI with h1 | h1
        · exact Or.inl h1
        · exact Or.inr h1
      · exact Or.inr hO

/-- C10.  Whenever the minimizer returns an automaton, that automaton has
exactly the input's state list, symbol list, start state and accepting list;
only the transition dictionary differs, and every key it holds was already a
key of the input's transition dictionary (entries are only redirected or
removed, never invented). -/
theorem claim_C10 : ∀ (fuel : Nat) (d B : DFA),
    minimizeDFA fuel d = some (some B) →
    B.states = d.states ∧ B.symbols = d.symbols ∧
    B.initial_state = d.initial_state ∧ B.final_states = d.final_states ∧
    B.state = none ∧
    ∀ k ∈ B.transitions.map Prod.fst, k ∈ d.transitions.map Prod.fst := by
  intro fuel d B h
  unfold minimizeDFA at h
  revert h
  cases hm : markingPhase fuel d with
  | none => intro h; cases h
  | some o =>
    cases o with
    | none => intro h; cases h
    | some st =>
      show finishQuot d (quotAll d.transitions (st.2.map (·.1)) d.transitions)
          = some (some B) → _
      cases hq : quotAll d.transitions (st.2.map (·.1)) d.transitions with
      | none =>
        intro h
        exact absurd (Option.some.inj h) (by simp [finishQuot])
      | some mt =>
        intro h
        have h2 : some (some (mkDFA d.states d.symbols mt d.initial_state
            d.final_states)) = some (some B) := h
        injection h2 with h3
        injection h3 with h4
        subst h4
        refine ⟨rfl, rfl, rfl, rfl, rfl, ?_⟩
        intro k hk
        rcases quotAll_keys d.transitions (st.2.map (·.1)) d.transitions mt hq
          k hk with h5 | h5 <;> exact h5

/-- C10 witness: the frame property applied to the source's reference example
`D[2]`, whose minimization succeeds at depth 50. -/
theorem claim_C10_witness :
    minimizeDFA 50 D2 = some (some D2min) ∧
    (D2min.states = D2.states ∧ D2min.symbols = D2.symbols ∧
     D2min.initial_state = D2.initial_state ∧
     D2min.final_states = D2.final_states ∧
     D2min.state = none ∧
     ∀ k ∈ D2min.transitions.map Prod.fst, k ∈ D2.transitions.map Prod.fst) :=
  ⟨by decide, claim_C10 50 D2 D2min (by decide)⟩

end DfaGf
